import Mathlib

/-!
Verification of the resumable video-summarization pipeline in
`rag_pipeline/video_summarizer.py` (class `VideoSummarizer`).

Embedding conventions:
* Python strings are modelled as `List Char` (a Python `str` is a sequence of
  code points); the Python substring test `needle in hay` is `containsSub`.
* Times and durations are modelled as `ℚ` (the source uses floats; all the
  arithmetic the claims depend on is exact).
* The remote multimodal service is an external collaborator.  Its response to
  the k-th inference request of a run is given by an oracle
  `oracle : ℕ → InferOutcome`; `InferOutcome.failure msg` stands for any
  exception raised inside the guarded body of `summarize_chunk` (frame
  extraction or the remote call), carrying the exception's string rendering.
  Rate limiting is detected by the source via the substring `"429"` of that
  rendering, which the embedding reproduces.
* Fallible functions return `Except Str α`; an `Except.error e` models a
  propagating Python exception rendered as `e`.  `summarize_chunk` in the
  source wraps its whole body in `try/except Exception` and *returns* the
  sentinel string from the handler, so its embedding only ever produces
  `Except.ok` values — this is modelled faithfully, and the callers'
  `except` handlers appear in the embedding as the (consequently dead)
  `Except.error` branches.
* The on-disk store is a map from path to parsed artifact
  (`Str → Option RunSummary`); a malformed artifact is `none`, matching the
  source's treatment of a non-parseable file as absent.
* Wall-clock delays (`time.sleep`) have no observable effect on the data flow
  and are not modelled; the number of inference calls and whether media was
  decoded are tracked explicitly as `RunEffects`.
-/

set_option maxRecDepth 8000

namespace VideoSummarizer

/-- Python strings as lists of code points. -/
abbrev Str := List Char

/-- Python's substring test `needle in hay`: some suffix of `hay` starts with
`needle`. -/
def containsSub (hay needle : Str) : Bool :=
  (List.range (hay.length + 1)).any fun i => needle.isPrefixOf (hay.drop i)

/-- Embeds `os.path.basename` for POSIX paths: the part after the last `'/'`. -/
def basename (p : Str) : Str :=
  (p.reverse.takeWhile fun c => c ≠ '/').reverse

/-- The root part of `os.path.splitext name` for a bare filename: everything
before the last `'.'`, except that a filename whose characters before the last
dot are all dots has no extension. -/
def splitextRoot (name : Str) : Str :=
  match ((List.range name.length).filter fun i => name.getD i ' ' = '.').getLast? with
  | none => name
  | some i => if (name.take i).all (fun c => c = '.') then name else name.take i

/-- Configuration `self.max_summary_chars` (fixed at construction). -/
def maxSummaryChars : ℕ := 1500

/-- Configuration `self.chunk_duration` default (30 seconds). -/
def chunkDurationDefault : ℚ := 30

/-- The fixed failure-marker substring used by the pipeline to classify a
stored chunk summary as failed. -/
def failureMarker : Str := "Error processing chunk".toList

/-- The sentinel failure string `f"Error processing chunk: {str(e)}"`. -/
def errorSummary (msg : Str) : Str := "Error processing chunk: ".toList ++ msg

/-- The ellipsis marker appended on truncation. -/
def ellipsis : Str := "...".toList

/-- Two-digit zero-padded decimal rendering (Python `f"{n:02d}"` for `n ≥ 0`). -/
def pad2 (n : ℕ) : Str :=
  if n < 10 then '0' :: Nat.toDigits 10 n else Nat.toDigits 10 n

/-- Embeds `f"{int(t//60):02d}:{int(t%60):02d}"` for a non-negative time `t`. -/
def fmtClock (t : ℚ) : Str :=
  pad2 (Int.toNat ⌊t / 60⌋) ++ (':' :: pad2 (Int.toNat ⌊t⌋ % 60))

/-- The display label `f"{start} - {end}"` built in `segment_video`. -/
def timestampLabel (s e : ℚ) : Str :=
  fmtClock s ++ (' ' :: '-' :: ' ' :: fmtClock e)

/-- The `chunk_info` dictionary built per chunk by `segment_video`. -/
structure ChunkInfo where
  chunk_number : ℕ
  start_time : ℚ
  end_time : ℚ
  duration : ℚ
  timestamp : Str
deriving DecidableEq

/-- Dictionary `video_info` as produced by `ingest_video`. -/
structure VideoInfo where
  path : Str
  duration : ℚ
  fps : ℚ
  size : ℚ × ℚ
  filename : Str
deriving DecidableEq

/-- Embeds `ingest_video`: capture the media's metadata; `filename` is the basename
of the path.  (Opening failures are fatal and precede everything modelled
here.) -/
def ingest_video (video_path : Str) (duration fps : ℚ) (size : ℚ × ℚ) : VideoInfo :=
  { path := video_path, duration := duration, fps := fps, size := size,
    filename := basename video_path }

/-- Embeds `int(np.ceil(duration / self.chunk_duration))`. -/
def chunkCount (duration chunkLen : ℚ) : ℕ := (⌈duration / chunkLen⌉).toNat

/-- Embeds `segment_video`: cut `[0, duration]` into `chunkCount` pieces of length
`chunkLen`, the last clamped by `min` to the total duration, with 1-based
chunk numbers and a display timestamp. -/
def segment_video (duration chunkLen : ℚ) : List ChunkInfo :=
  (List.range (chunkCount duration chunkLen)).map fun i =>
    { chunk_number := i + 1,
      start_time := (i : ℚ) * chunkLen,
      end_time := min (((i : ℚ) + 1) * chunkLen) duration,
      duration := min (((i : ℚ) + 1) * chunkLen) duration - (i : ℚ) * chunkLen,
      timestamp := timestampLabel ((i : ℚ) * chunkLen)
        (min (((i : ℚ) + 1) * chunkLen) duration) }

/-- The frame offsets `[0, duration/2, duration-0.1]` (or `[0]` for a chunk of
at most 0.1s) requested by `extract_frames_and_audio`. -/
def frame_times (duration : ℚ) : List ℚ :=
  if duration > 1 / 10 then [0, duration / 2, duration - 1 / 10] else [0]

/-- Embeds `extract_frames_and_audio` on a chunk of the given duration.  A frame is
identified by the offset it was sampled at (decoding itself is the external
media library); offsets failing the guard `t < duration` are skipped, and the
audio component is always `none`. -/
def extract_frames_and_audio (duration : ℚ) : List ℚ × Option Unit :=
  ((frame_times duration).filter fun t => decide (t < duration), none)

/-- Outcome of the guarded body of one `summarize_chunk` attempt: either the
remote service's response text, or the string rendering of whatever exception
was raised (frame extraction or the remote call).  The source classifies a
failure as rate limiting iff that rendering contains `"429"`. -/
inductive InferOutcome where
  | success (text : Str)
  | failure (msg : Str)
deriving DecidableEq

/-- The hard cap applied to a returned response text: over-long text is cut to
`cap − 3` characters and an ellipsis marker is appended. -/
def truncateSummary (s : Str) : Str :=
  if s.length > maxSummaryChars then s.take (maxSummaryChars - 3) ++ ellipsis else s

/-- Embeds `summarize_chunk`: one attempt.  The entire body is wrapped in
`try/except Exception`, and the handler *returns* the sentinel failure string
instead of re-raising, so the function never produces `Except.error`. -/
def summarize_chunk (o : InferOutcome) : Except Str Str :=
  match o with
  | .success text => .ok (truncateSummary text)
  | .failure msg => .ok (errorSummary msg)

/-- One stored chunk entry of the persisted artifact. -/
structure ChunkData where
  chunk_number : ℕ
  timestamp : Str
  start_time : ℚ
  end_time : ℚ
  duration : ℚ
  summary : Str
  summary_length : ℕ
deriving DecidableEq

instance : Inhabited ChunkData := ⟨⟨0, [], 0, 0, 0, [], 0⟩⟩

/-- The persisted artifact (`video_summary` dictionary). -/
structure RunSummary where
  video_name : Str
  video_path : Str
  total_duration : ℚ
  fps : ℚ
  size : ℚ × ℚ
  processing_date : Str
  total_chunks : ℕ
  chunk_duration : ℚ
  chunks : List ChunkData
deriving DecidableEq

/-- Embeds `create_video_summary_json`: assemble the artifact from the video metadata
and the ordered `(chunk_info, summary)` pairs; each entry records the summary
and its character length. -/
def create_video_summary_json (vi : VideoInfo) (chunkLen : ℚ)
    (chunk_summaries : List (ChunkInfo × Str)) (now : Str) : RunSummary :=
  { video_name := vi.filename, video_path := vi.path, total_duration := vi.duration,
    fps := vi.fps, size := vi.size, processing_date := now,
    total_chunks := chunk_summaries.length, chunk_duration := chunkLen,
    chunks := chunk_summaries.map fun p =>
      { chunk_number := p.1.chunk_number, timestamp := p.1.timestamp,
        start_time := p.1.start_time, end_time := p.1.end_time,
        duration := p.1.duration, summary := p.2, summary_length := p.2.length } }

/-- The default artifact path written by `save_summary_json`:
`os.path.join("output", f"{splitext(video_name)[0]}_summary.json")`, unless an
explicit output path is supplied. -/
def save_summary_json_path (video_name : Str) (output_path : Option Str) : Str :=
  match output_path with
  | some p => p
  | none => "output/".toList ++ splitextRoot video_name ++ "_summary.json".toList

/-- The on-disk store: path to parsed artifact (a malformed file is `none`). -/
def writeFs (fs : Str → Option RunSummary) (p : Str) (s : RunSummary) :
    Str → Option RunSummary :=
  fun q => if q = p then some s else fs q

/-- The empty store. -/
def emptyFs : Str → Option RunSummary := fun _ => none

/-- Embeds `save_summary_json`: serialize the artifact at its (default or explicit)
path, overwriting; returns the updated store and the written path. -/
def save_summary_json (fs : Str → Option RunSummary) (video_summary : RunSummary)
    (output_path : Option Str) : (Str → Option RunSummary) × Str :=
  (writeFs fs (save_summary_json_path video_summary.video_name output_path) video_summary,
   save_summary_json_path video_summary.video_name output_path)

/-- The artifact name probed by `check_existing_summary`:
`f"{splitext(basename(video_path))[0]}_summary.json"` — relative to the working
directory, with no `output/` prefix. -/
def check_existing_summary_path (video_path : Str) : Str :=
  splitextRoot (basename video_path) ++ "_summary.json".toList

/-- Embeds `check_existing_summary`: probe the store for the derived artifact name; a
missing or malformed artifact yields `none`. -/
def check_existing_summary (fs : Str → Option RunSummary) (video_path : Str) :
    Option RunSummary :=
  fs (check_existing_summary_path video_path)

/-- The failed-chunk scan inside `resume_failed_processing` (lines 234–237):
the chunk numbers of entries whose stored summary contains the failure
marker. -/
def classify_failed (s : RunSummary) : List ℕ :=
  (s.chunks.filter fun c => containsSub c.summary failureMarker).map fun c => c.chunk_number

/-- The identical failed-chunk scan inside `process_video` (lines 319–322). -/
def processVideoFailedChunks (s : RunSummary) : List ℕ :=
  (s.chunks.filter fun c => containsSub c.summary failureMarker).map fun c => c.chunk_number

/-- Effects observable at the interface boundary of a run: how many inference
requests were issued and whether the media file was decoded. -/
structure RunEffects where
  inferCalls : ℕ
  mediaDecoded : Bool
deriving DecidableEq

/-- One fresh-run chunk attempt in `process_video` (lines 366–390): call
`summarize_chunk`; the `except` handler — waiting 60s and retrying once when
the exception rendering contains `"429"`, otherwise recording the sentinel —
is reproduced on the `Except.error` channel exactly as written.  Returns the
stored summary text and the updated call counter. -/
def freshChunkStep (oracle : ℕ → InferOutcome) (calls : ℕ) : Str × ℕ :=
  match summarize_chunk (oracle calls) with
  | .ok summary => (summary, calls + 1)
  | .error e =>
    if containsSub e ("429".toList) then
      match summarize_chunk (oracle (calls + 1)) with
      | .ok summary => (summary, calls + 2)
      | .error retry_error => (errorSummary retry_error, calls + 2)
    else (errorSummary e, calls + 1)

/-- The fresh-run loop of `process_video` over the segmented chunks, in index
order, threading the inference-call counter. -/
def freshLoop (oracle : ℕ → InferOutcome) :
    List ChunkInfo → ℕ → List (ChunkInfo × Str) × ℕ
  | [], calls => ([], calls)
  | ci :: rest, calls =>
    let step := freshChunkStep oracle calls
    let tail := freshLoop oracle rest step.2
    ((ci, step.1) :: tail.1, tail.2)

/-- Update of the loaded artifact performed after re-summarizing chunk `n`
during resume (lines 262–266): overwrite `summary` and `summary_length` of the
first entry whose `chunk_number` equals `n` (the loop breaks there), leaving
everything else untouched. -/
def updateChunkEntry (chunks : List ChunkData) (n : ℕ) (t : Str) : List ChunkData :=
  match chunks with
  | [] => []
  | c :: rest =>
    if c.chunk_number = n then
      { c with summary := t, summary_length := t.length } :: rest
    else c :: updateChunkEntry rest n t

/-- One resume-run chunk attempt (lines 256–284): 3s pre-delay (timing not
modelled), then `summarize_chunk`; the `except` handler with its 60s/one-retry
rate-limit recovery is reproduced on the `Except.error` channel exactly as
written (a still-failing retry leaves the artifact unchanged). -/
def resumeChunkStep (oracle : ℕ → InferOutcome) (calls : ℕ) (n : ℕ)
    (chunks : List ChunkData) : List ChunkData × ℕ :=
  match summarize_chunk (oracle calls) with
  | .ok summary => (updateChunkEntry chunks n summary, calls + 1)
  | .error e =>
    if containsSub e ("429".toList) then
      match summarize_chunk (oracle (calls + 1)) with
      | .ok summary => (updateChunkEntry chunks n summary, calls + 2)
      | .error _ => (chunks, calls + 2)
    else (chunks, calls + 1)

/-- The resume loop (lines 251–284): walk the re-derived chunks in index
order and re-process exactly those whose number is among the failed ones.
Returns the updated entries, the list of chunk numbers for which inference was
re-invoked (in processing order), and the call counter. -/
def resumeLoop (oracle : ℕ → InferOutcome) (failed : List ℕ) :
    List ChunkInfo → List ChunkData → ℕ → List ChunkData × List ℕ × ℕ
  | [], chunks, calls => (chunks, [], calls)
  | ci :: rest, chunks, calls =>
    if ci.chunk_number ∈ failed then
      let step := resumeChunkStep oracle calls ci.chunk_number chunks
      let r := resumeLoop oracle failed rest step.1 step.2
      (r.1, ci.chunk_number :: r.2.1, r.2.2)
    else resumeLoop oracle failed rest chunks calls

/-- Result of `resume_failed_processing`: the (possibly updated) artifact, the
chunk numbers re-driven through inference, and the observable effects. -/
structure ResumeResult where
  summary : RunSummary
  invoked : List ℕ
  effects : RunEffects
deriving DecidableEq

/-- Embeds `resume_failed_processing`: load the artifact, classify failed chunks; if
none, return it unchanged without touching the media or the network;
otherwise re-ingest and re-segment the media, re-process exactly the failed
chunk numbers mutating the loaded entries in place, refresh the processing
timestamp, and save over the same path (persistence is modelled by
`save_summary_json` at the call boundary). -/
def resume_failed_processing (oracle : ℕ → InferOutcome) (mediaDuration chunkLen : ℚ)
    (s : RunSummary) (now : Str) : ResumeResult :=
  let failed := classify_failed s
  if failed.isEmpty then
    { summary := s, invoked := [], effects := { inferCalls := 0, mediaDecoded := false } }
  else
    let segs := segment_video mediaDuration chunkLen
    let r := resumeLoop oracle failed segs s.chunks 0
    { summary := { s with chunks := r.1, processing_date := now },
      invoked := r.2.1,
      effects := { inferCalls := r.2.2, mediaDecoded := true } }

/-- Embeds `process_video`: the orchestrator.  Unless `force_reprocess`, probe the
store for a prior artifact; with failed chunks and user consent, resume; with
no failed chunks and user consent, short-circuit returning the loaded artifact
unchanged; otherwise run the fresh pipeline (ingest → segment → per-chunk
summarize with the pacing/retry policy of `freshChunkStep` → assemble →
save). -/
def process_video (fs : Str → Option RunSummary) (oracle : ℕ → InferOutcome)
    (chunkLen : ℚ) (video_path : Str) (mediaDuration mediaFps : ℚ)
    (mediaSize : ℚ × ℚ) (now : Str)
    (force_reprocess acceptResume acceptReuse : Bool) : RunSummary × RunEffects :=
  let freshRun : RunSummary × RunEffects :=
    let vi := ingest_video video_path mediaDuration mediaFps mediaSize
    let segs := segment_video vi.duration chunkLen
    let r := freshLoop oracle segs 0
    (create_video_summary_json vi chunkLen r.1 now,
     { inferCalls := r.2, mediaDecoded := true })
  if force_reprocess then freshRun
  else
    match check_existing_summary fs video_path with
    | none => freshRun
    | some s =>
      if processVideoFailedChunks s = [] then
        if acceptReuse then (s, { inferCalls := 0, mediaDecoded := false })
        else freshRun
      else
        if acceptResume then
          let r := resume_failed_processing oracle mediaDuration chunkLen s now
          (r.summary, r.effects)
        else freshRun


/-! ### Concrete data used by witnesses and counterexamples -/

/-- An oracle whose every call succeeds with a fixed ordinary response. -/
def oracleOk : ℕ → InferOutcome :=
  fun _ => InferOutcome.success ("The scene shows a lecturer at a whiteboard.".toList)

/-- Exception rendering of a rate-limited first attempt. -/
def c1Msg : Str := "429 Resource has been exhausted".toList

/-- Oracle for the rate-limit scenario: the first inference call is
rate-limited, every later call succeeds. -/
def c1Oracle : ℕ → InferOutcome :=
  fun k => if k = 0 then InferOutcome.failure c1Msg
           else InferOutcome.success ("A clear description of the scene.".toList)

/-- Builder for a stored chunk entry with a consistent recorded length. -/
def mkEntry (n : ℕ) (text : Str) : ChunkData :=
  { chunk_number := n, timestamp := "00:00 - 00:30".toList, start_time := 0,
    end_time := 30, duration := 30, summary := text, summary_length := text.length }

/-- Builder for a small concrete artifact over the given entries. -/
def mkArtifact (cs : List ChunkData) : RunSummary :=
  { video_name := "video.mp4".toList, video_path := "video.mp4".toList,
    total_duration := 150, fps := 30, size := (640, 360),
    processing_date := "2026-10-11T00:00:00".toList, total_chunks := cs.length,
    chunk_duration := 30, chunks := cs }

/-- Artifact whose single chunk carries the failure sentinel of the spec's
example. -/
def c6FailedArtifact : RunSummary :=
  mkArtifact [mkEntry 1 ("Error processing chunk: timeout".toList)]

/-- Artifact whose single chunk is a 40-character ordinary sentence. -/
def c6CleanArtifact : RunSummary :=
  mkArtifact [mkEntry 1 ("The speaker greets the class and begins.".toList)]

/-- Five-chunk artifact with failure markers on chunks 2 and 5 only. -/
def c3Summary : RunSummary :=
  mkArtifact
    [mkEntry 1 ("A presenter introduces the topic.".toList),
     mkEntry 2 (errorSummary c1Msg),
     mkEntry 3 ("Slides with a diagram are discussed.".toList),
     mkEntry 4 ("A question from the audience is answered.".toList),
     mkEntry 5 (errorSummary c1Msg)]

/-- A 1600-character periodic response text. -/
def c7input : Str := List.replicate 1600 'a'

/-- A processing timestamp used by concrete runs. -/
def nowEx : Str := "2026-10-12T00:00:00".toList

/-- Store holding the clean artifact exactly at the name the probe derives. -/
def c4Fs : Str → Option RunSummary :=
  writeFs emptyFs (check_existing_summary_path ("video.mp4".toList)) c6CleanArtifact

/-! ### Helper lemmas -/

/-- Substring containment, as computed by `containsSub`, coincides with
`List.IsInfix`, the mathematical reading of Python's `in`. -/
lemma containsSub_eq_true_iff (hay needle : Str) :
    containsSub hay needle = true ↔ needle <:+: hay := by
  rw [containsSub, List.any_eq_true]
  constructor
  · rintro ⟨i, _, hp⟩
    rw [List.isPrefixOf_iff_prefix] at hp
    exact hp.isInfix.trans (List.drop_suffix i hay).isInfix
  · rintro ⟨st, t, rfl⟩
    refine ⟨st.length, ?_, ?_⟩
    · rw [List.mem_range]
      simp [Nat.lt_succ_iff]
    · rw [List.isPrefixOf_iff_prefix, List.append_assoc, List.drop_left]
      exact ⟨t, rfl⟩

/-- The sentinel failure string always contains the failure marker. -/
lemma errorSummary_contains_marker (msg : Str) :
    containsSub (errorSummary msg) failureMarker = true := by
  rw [containsSub_eq_true_iff]
  exact ⟨[], ": ".toList ++ msg, by rw [List.nil_append, ← List.append_assoc]; rfl⟩

/-- The one-attempt wrapper never propagates an exception: every outcome is
returned on the success channel. -/
lemma summarize_chunk_isOk (o : InferOutcome) : ∃ t, summarize_chunk o = Except.ok t := by
  cases o with
  | success text => exact ⟨truncateSummary text, rfl⟩
  | failure msg => exact ⟨errorSummary msg, rfl⟩

/-! ### Claims -/

/-- C1: the fresh-run orchestrator is claimed to wait 60s and retry once when
a chunk's inference attempt is rate-limited, storing the retry's text on
success.  In the source, `summarize_chunk` catches every exception and
returns the sentinel, so the orchestrator's 429 handler is unreachable: with
an oracle whose first call is rate-limited and whose second call would
succeed, the sentinel is stored at once, only one inference call is consumed,
and in general every chunk consumes exactly one call — no retry ever
happens. -/
theorem c1_rate_limit_retry_unreachable :
    freshChunkStep c1Oracle 0 = (errorSummary c1Msg, 1) ∧
    c1Oracle 1 = InferOutcome.success ("A clear description of the scene.".toList) ∧
    (∀ (oracle : ℕ → InferOutcome) (calls : ℕ),
      (freshChunkStep oracle calls).2 = calls + 1) := by
  refine ⟨rfl, rfl, ?_⟩
  intro oracle calls
  rw [freshChunkStep]
  cases oracle calls <;> rfl

/-- C2: saving an artifact under its default derived name and then probing
for it with `check_existing_summary` is claimed to find it.  It does not: the
save path carries the `output/` prefix while the probe's derived name does
not, so after a default save of the artifact for `video.mp4` the probe
returns `none`. -/
theorem c2_probe_misses_default_save :
    (save_summary_json emptyFs c6CleanArtifact none).2 ≠
      check_existing_summary_path ("video.mp4".toList) ∧
    check_existing_summary (save_summary_json emptyFs c6CleanArtifact none).1
      ("video.mp4".toList) = none := by
  exact ⟨by decide, by decide⟩

/-- C6: `classify_failed` returns exactly the chunk numbers of entries whose
stored summary contains the fixed marker substring; the sentinel example
`"Error processing chunk: timeout"` is classified as failed, a 40-character
ordinary sentence is not, and the fresh-run completeness check performs the
identical classification. -/
theorem c6_classify_failed_exact :
    (∀ s : RunSummary, processVideoFailedChunks s = classify_failed s) ∧
    (∀ (s : RunSummary) (n : ℕ), n ∈ classify_failed s ↔
      ∃ c ∈ s.chunks, containsSub c.summary failureMarker = true ∧ c.chunk_number = n) ∧
    classify_failed c6FailedArtifact = [1] ∧
    classify_failed c6CleanArtifact = [] ∧
    (c6FailedArtifact.chunks.getD 0 default).summary.length = 31 ∧
    (c6CleanArtifact.chunks.getD 0 default).summary.length = 40 := by
  refine ⟨fun s => rfl, ?_, by decide, by decide, by decide, by decide⟩
  intro s n
  rw [classify_failed]
  simp only [List.mem_map, List.mem_filter]
  constructor
  · rintro ⟨c, ⟨hc, hm⟩, rfl⟩
    exact ⟨c, hc, hm, rfl⟩
  · rintro ⟨c, hc, hm, rfl⟩
    exact ⟨c, ⟨hc, hm⟩, rfl⟩

/-- C8: failures of the per-chunk inference call are claimed to reach the
caller as typed outcomes distinct from success.  They do not: a rate-limited
attempt is returned on the success channel as an ordinary text value (the
sentinel string). -/
theorem c8_counterexample :
    summarize_chunk (InferOutcome.failure ("429 Rate limit exceeded".toList)) =
      Except.ok (errorSummary ("429 Rate limit exceeded".toList)) := rfl

/-- C8 (amended): `summarize_chunk` reports every failure — rate-limit or
other — to its caller as the returned sentinel text value on the success
channel; it never raises, and success and failure are distinguished only by
the failure-marker substring of the returned text. -/
theorem c8_failures_returned_as_text (msg : Str) (o : InferOutcome) :
    summarize_chunk (InferOutcome.failure msg) = Except.ok (errorSummary msg) ∧
    containsSub (errorSummary msg) failureMarker = true ∧
    (∃ t, summarize_chunk o = Except.ok t) :=
  ⟨rfl, errorSummary_contains_marker msg, summarize_chunk_isOk o⟩

/-- C9: the frame sampler is claimed to fail with a decode error whenever a
requested offset is not strictly below the chunk's duration.  It does not
fail: for a zero-duration chunk the requested offset `0` is not strictly
below the duration, yet the sampler returns a frame sequence (the empty
one). -/
theorem c9_counterexample :
    (0 : ℚ) ∈ frame_times 0 ∧ ¬ ((0 : ℚ) < (0 : ℚ)) ∧
    (extract_frames_and_audio 0).1 = [] := by
  have hft : frame_times 0 = [0] := by
    rw [frame_times, if_neg]
    norm_num
  refine ⟨by rw [hft]; exact List.mem_singleton.mpr rfl, by norm_num, ?_⟩
  rw [extract_frames_and_audio, hft]
  simp only [List.filter_cons, List.filter_nil, decide_eq_true_eq]
  rw [if_neg (by norm_num : ¬ ((0 : ℚ) < 0))]

/-- C9 (amended): requested offsets that are not strictly below the chunk's
duration are skipped rather than raising; the returned frame sequence
consists exactly of the requested offsets that are strictly below the
duration. -/
theorem c9_out_of_range_offsets_skipped (d t : ℚ) :
    t ∈ (extract_frames_and_audio d).1 ↔ t ∈ frame_times d ∧ t < d := by
  rw [extract_frames_and_audio]
  simp [List.mem_filter]



/-- C7: truncation behaviour, amended.  A response text of length at most the
1500-character cap is stored unchanged; an over-long response is stored as its
first cap−3 characters followed by the ellipsis marker, with total length
exactly 1500 and the marker (not the original tail) in the final position —
purely as post-processing of the given text.  (The original claim's further
condition that the stored text never contains the cut-off tail is refuted by
`c7_counterexample`.) -/
theorem c7_truncation (s : Str) :
    (s.length ≤ maxSummaryChars → truncateSummary s = s) ∧
    (s.length > maxSummaryChars →
      truncateSummary s = s.take (maxSummaryChars - 3) ++ ellipsis ∧
      (truncateSummary s).length = maxSummaryChars ∧
      (truncateSummary s).drop (maxSummaryChars - 3) = ellipsis) := by
  constructor
  · intro h
    rw [truncateSummary, if_neg (by omega)]
  · intro h
    have htr : truncateSummary s = s.take (maxSummaryChars - 3) ++ ellipsis := by
      rw [truncateSummary, if_pos h]
    have hlen : (s.take (maxSummaryChars - 3)).length = maxSummaryChars - 3 := by
      rw [List.length_take]
      have : maxSummaryChars = 1500 := rfl
      omega
    refine ⟨htr, ?_, ?_⟩
    · rw [htr, List.length_append, hlen]
      have : ellipsis.length = 3 := rfl
      rw [this]
      have : maxSummaryChars = 1500 := rfl
      omega
    · rw [htr]
      have hd := List.drop_left (s.take (maxSummaryChars - 3)) ellipsis
      rw [hlen] at hd
      exact hd

/-- C7 witness: a 1600-character response is over the cap and its stored form
has length exactly 1500, while a short response is stored unchanged. -/
theorem c7_truncation_witness :
    c7input.length > maxSummaryChars ∧
    (truncateSummary c7input).length = maxSummaryChars ∧
    truncateSummary ("short".toList) = "short".toList := by
  have hlen : c7input.length > maxSummaryChars := by
    rw [c7input, List.length_replicate]
    norm_num [maxSummaryChars]
  exact ⟨hlen, ((c7_truncation c7input).2 hlen).2.1,
    (c7_truncation ("short".toList)).1 (by norm_num [maxSummaryChars])⟩

/-- C7 counterexample: the original claim also asserts the stored summary
does not contain the untruncated tail; for the periodic response of 1600
copies of one character, the cut-off tail (103 copies) is a substring of the
stored summary, so that part of the claim is false. -/
theorem c7_counterexample :
    c7input.length > maxSummaryChars ∧
    containsSub (truncateSummary c7input) (c7input.drop (maxSummaryChars - 3)) = true := by
  constructor
  · rw [c7input, List.length_replicate]
    norm_num [maxSummaryChars]
  · have h1 : truncateSummary c7input = List.replicate 1497 'a' ++ ellipsis := by
      rw [truncateSummary, if_pos]
      · rw [c7input]
        rw [show maxSummaryChars - 3 = 1497 from rfl, List.take_replicate]
        norm_num
      · rw [c7input, List.length_replicate]
        norm_num [maxSummaryChars]
    have h2 : c7input.drop (maxSummaryChars - 3) = List.replicate 103 'a' := by
      rw [c7input, show maxSummaryChars - 3 = 1497 from rfl, List.drop_replicate]
    rw [h1, h2, containsSub_eq_true_iff]
    refine ⟨[], List.replicate 1394 'a' ++ ellipsis, ?_⟩
    rw [List.nil_append, ← List.append_assoc, ← List.replicate_add]



/-- Each index strictly below the chunk count starts strictly inside the
video: `k < chunkCount d l → k·l < d`. -/
lemma chunkCount_mul_lt {d l : ℚ} (hl : 0 < l) {k : ℕ} (hk : k < chunkCount d l) :
    (k : ℚ) * l < d := by
  have h1 : ((k : ℤ) : ℚ) < d / l := by
    rw [← Int.lt_ceil]
    exact_mod_cast Int.lt_toNat.mp hk
  have h2 : (k : ℚ) < d / l := by exact_mod_cast h1
  exact (lt_div_iff₀ hl).mp h2

/-- The chunk count covers the whole duration: `d ≤ chunkCount d l · l`. -/
lemma le_chunkCount_mul {d l : ℚ} (hd : 0 ≤ d) (hl : 0 < l) :
    d ≤ (chunkCount d l : ℚ) * l := by
  have h0 : (0 : ℤ) ≤ ⌈d / l⌉ := Int.ceil_nonneg (div_nonneg hd hl.le)
  have h1 : d / l ≤ ((chunkCount d l : ℕ) : ℚ) := by
    have hc : ((chunkCount d l : ℕ) : ℤ) = ⌈d / l⌉ := Int.toNat_of_nonneg h0
    have := Int.le_ceil (d / l)
    rw [show ((⌈d / l⌉ : ℤ) : ℚ) = ((chunkCount d l : ℕ) : ℚ) by exact_mod_cast hc.symm] at this
    exact this
  exact (div_le_iff₀ hl).mp h1

/-- Length of the segmentation. -/
lemma segment_video_length (d l : ℚ) :
    (segment_video d l).length = chunkCount d l := by
  rw [segment_video, List.length_map, List.length_range]

/-- Elementwise description of the segmentation. -/
lemma segment_video_get (d l : ℚ) (i : ℕ) (h : i < (segment_video d l).length) :
    (segment_video d l).get ⟨i, h⟩ =
      { chunk_number := i + 1,
        start_time := (i : ℚ) * l,
        end_time := min (((i : ℚ) + 1) * l) d,
        duration := min (((i : ℚ) + 1) * l) d - (i : ℚ) * l,
        timestamp := timestampLabel ((i : ℚ) * l) (min (((i : ℚ) + 1) * l) d) } := by
  simp [segment_video]

/-- Telescoping sum over an initial segment of the naturals. -/
lemma sum_map_range_sub (f : ℕ → ℚ) (n : ℕ) :
    ((List.range n).map fun i => f (i + 1) - f i).sum = f n - f 0 := by
  induction n with
  | zero => simp
  | succ n ih =>
    rw [List.range_succ, List.map_append, List.sum_append]
    simp [ih]

/-- C5: for every duration ≥ 0 and chunk length > 0 the segmenter produces
exactly `⌈duration/chunkLen⌉` chunks with 1-based contiguous indices, the
first starting at 0, each chunk's end time equal to the next chunk's start
time, the last chunk's end time equal to the total duration, every non-final
chunk of duration exactly `chunkLen` and the final chunk clamped to the
remainder, the durations summing to the total duration, and an empty
segmentation for a zero duration. -/
theorem c5_segmenter (d l : ℚ) (hd : 0 ≤ d) (hl : 0 < l) :
    (segment_video d l).length = chunkCount d l ∧
    (∀ i, ∀ h : i < (segment_video d l).length,
      ((segment_video d l).get ⟨i, h⟩).chunk_number = i + 1) ∧
    (∀ h : 0 < (segment_video d l).length,
      ((segment_video d l).get ⟨0, h⟩).start_time = 0) ∧
    (∀ i, ∀ h : i + 1 < (segment_video d l).length,
      ((segment_video d l).get ⟨i, Nat.lt_of_succ_lt h⟩).end_time =
        ((segment_video d l).get ⟨i + 1, h⟩).start_time) ∧
    (∀ h : 0 < (segment_video d l).length,
      ((segment_video d l).get
        ⟨(segment_video d l).length - 1, Nat.sub_lt h Nat.one_pos⟩).end_time = d) ∧
    (∀ i, ∀ h : i + 1 < (segment_video d l).length,
      ((segment_video d l).get ⟨i, Nat.lt_of_succ_lt h⟩).duration = l) ∧
    (∀ h : 0 < (segment_video d l).length,
      ((segment_video d l).get
          ⟨(segment_video d l).length - 1, Nat.sub_lt h Nat.one_pos⟩).duration =
        d - (((segment_video d l).length - 1 : ℕ) : ℚ) * l) ∧
    ((segment_video d l).map (fun c => c.duration)).sum = d ∧
    (d = 0 → segment_video d l = []) := by
  have hlen := segment_video_length d l
  have hmin_end : ∀ i : ℕ, i + 1 < chunkCount d l → min (((i : ℚ) + 1) * l) d = ((i : ℚ) + 1) * l := by
    intro i hi
    refine min_eq_left ?_
    have : ((i + 1 : ℕ) : ℚ) * l < d := chunkCount_mul_lt hl hi
    push_cast at this
    exact this.le
  refine ⟨hlen, ?_, ?_, ?_, ?_, ?_, ?_, ?_, ?_⟩
  · intro i h
    rw [segment_video_get]
  · intro h
    rw [segment_video_get]
    push_cast
    ring
  · intro i h
    rw [segment_video_get, segment_video_get]
    have hi : i + 1 < chunkCount d l := by omega
    rw [hmin_end i hi]
    push_cast
    ring
  · intro h
    rw [segment_video_get]
    have hpos : 0 < chunkCount d l := by omega
    have hcast : (((segment_video d l).length - 1 : ℕ) : ℚ) + 1 = (chunkCount d l : ℚ) := by
      rw [hlen, Nat.cast_sub (by omega : 1 ≤ chunkCount d l)]
      push_cast
      ring
    rw [hcast]
    exact min_eq_right (le_chunkCount_mul hd hl)
  · intro i h
    rw [segment_video_get]
    have hi : i + 1 < chunkCount d l := by omega
    rw [hmin_end i hi]
    ring
  · intro h
    rw [segment_video_get]
    have hpos : 0 < chunkCount d l := by omega
    have hcast : (((segment_video d l).length - 1 : ℕ) : ℚ) + 1 = (chunkCount d l : ℚ) := by
      rw [hlen, Nat.cast_sub (by omega : 1 ≤ chunkCount d l)]
      push_cast
      ring
    rw [hcast, min_eq_right (le_chunkCount_mul hd hl)]
  · have hmap : (segment_video d l).map (fun c => c.duration) =
        (List.range (chunkCount d l)).map
          (fun i => min (((i + 1 : ℕ) : ℚ) * l) d - min (((i : ℕ) : ℚ) * l) d) := by
      rw [segment_video, List.map_map]
      refine List.map_congr_left ?_
      intro a ha
      have h1 : min (((a : ℕ) : ℚ) * l) d = ((a : ℕ) : ℚ) * l :=
        min_eq_left (chunkCount_mul_lt hl (List.mem_range.mp ha)).le
      simp only [Function.comp]
      rw [h1]
      push_cast
      ring_nf
    rw [hmap, sum_map_range_sub (fun i => min (((i : ℕ) : ℚ) * l) d) (chunkCount d l)]
    rw [show (((0 : ℕ) : ℚ) * l) = 0 by push_cast; ring]
    rw [min_eq_left hd, min_eq_right (le_chunkCount_mul hd hl), sub_zero]
  · intro h0
    subst h0
    rw [segment_video, show chunkCount 0 l = 0 by rw [chunkCount]; simp]
    rfl

/-- C5 witness: the spec's example, total duration 65 with chunk length 30 —
the durations of the produced chunks sum to 65 (and the hypotheses 0 ≤ 65 and
0 < 30 hold). -/
theorem c5_segmenter_witness :
    ((segment_video 65 30).map (fun c => c.duration)).sum = 65 ∧
    (0 : ℚ) ≤ 65 ∧ (0 : ℚ) < 30 :=
  ⟨(c5_segmenter 65 30 (by norm_num) (by norm_num)).2.2.2.2.2.2.2.1,
   by norm_num, by norm_num⟩



/-- Updating one entry preserves the number of entries. -/
lemma updateChunkEntry_length (cs : List ChunkData) (n : ℕ) (t : Str) :
    (updateChunkEntry cs n t).length = cs.length := by
  induction cs with
  | nil => rfl
  | cons c rest ih =>
    rw [updateChunkEntry]
    by_cases hb : c.chunk_number = n
    · rw [if_pos hb]
      rfl
    · rw [if_neg hb, List.length_cons, List.length_cons, ih]

/-- Updating one entry preserves every entry's chunk number positionally. -/
lemma updateChunkEntry_getD_chunk_number (cs : List ChunkData) (n : ℕ) (t : Str) (i : ℕ) :
    ((updateChunkEntry cs n t).getD i default).chunk_number =
      (cs.getD i default).chunk_number := by
  induction cs generalizing i with
  | nil => rfl
  | cons c rest ih =>
    rw [updateChunkEntry]
    by_cases hb : c.chunk_number = n
    · rw [if_pos hb]
      cases i with
      | zero => rfl
      | succ j => rfl
    · rw [if_neg hb]
      cases i with
      | zero => rfl
      | succ j => exact ih j

/-- An entry whose chunk number differs from the updated one is untouched. -/
lemma updateChunkEntry_getD_of_ne (cs : List ChunkData) (n : ℕ) (t : Str) (i : ℕ)
    (hne : (cs.getD i default).chunk_number ≠ n) :
    (updateChunkEntry cs n t).getD i default = cs.getD i default := by
  induction cs generalizing i with
  | nil => rfl
  | cons c rest ih =>
    rw [updateChunkEntry]
    by_cases hb : c.chunk_number = n
    · rw [if_pos hb]
      cases i with
      | zero => exact absurd hb hne
      | succ j => rfl
    · rw [if_neg hb]
      cases i with
      | zero => rfl
      | succ j => exact ih j hne

/-- The written entry records the length of the text it stores, and every
other entry keeps its recorded-length property. -/
lemma updateChunkEntry_inv (cs : List ChunkData) (n : ℕ) (t : Str)
    (h : ∀ c ∈ cs, c.summary_length = c.summary.length) :
    ∀ c ∈ updateChunkEntry cs n t, c.summary_length = c.summary.length := by
  induction cs with
  | nil => intro c hc; exact absurd hc (by rw [updateChunkEntry]; exact List.not_mem_nil c)
  | cons a rest ih =>
    intro c hc
    rw [updateChunkEntry] at hc
    by_cases hb : a.chunk_number = n
    · rw [if_pos hb] at hc
      rcases List.mem_cons.mp hc with h1 | h1
      · subst h1; rfl
      · exact h c (List.mem_cons_of_mem a h1)
    · rw [if_neg hb] at hc
      rcases List.mem_cons.mp hc with h1 | h1
      · rw [h1]; exact h a (List.mem_cons_self a rest)
      · exact ih (fun x hx => h x (List.mem_cons_of_mem a hx)) c h1

/-- One resume attempt always stores some text for the selected chunk number
(the wrapper never raises) and consumes exactly one inference call. -/
lemma resumeChunkStep_eq (oracle : ℕ → InferOutcome) (calls n : ℕ) (cs : List ChunkData) :
    ∃ t, resumeChunkStep oracle calls n cs = (updateChunkEntry cs n t, calls + 1) := by
  cases h : oracle calls with
  | success text => exact ⟨truncateSummary text, by rw [resumeChunkStep, h]; rfl⟩
  | failure msg => exact ⟨errorSummary msg, by rw [resumeChunkStep, h]; rfl⟩

/-- Behaviour of the resume loop: entry count is preserved, the re-invoked
chunk numbers are exactly the re-derived chunk numbers that lie in the failed
set (in order), chunk numbers are preserved positionally, and entries whose
number is not failed are untouched. -/
lemma resumeLoop_spec (oracle : ℕ → InferOutcome) (failed : List ℕ) :
    ∀ (segs : List ChunkInfo) (cs : List ChunkData) (calls : ℕ),
      (resumeLoop oracle failed segs cs calls).1.length = cs.length ∧
      (resumeLoop oracle failed segs cs calls).2.1 =
        (segs.map fun c => c.chunk_number).filter (fun m => decide (m ∈ failed)) ∧
      (∀ i, (((resumeLoop oracle failed segs cs calls).1.getD i default).chunk_number =
        (cs.getD i default).chunk_number)) ∧
      (∀ i, (cs.getD i default).chunk_number ∉ failed →
        (resumeLoop oracle failed segs cs calls).1.getD i default = cs.getD i default) := by
  intro segs
  induction segs with
  | nil => exact fun cs calls => ⟨rfl, rfl, fun i => rfl, fun i h => rfl⟩
  | cons ci rest ih =>
    intro cs calls
    by_cases hm : ci.chunk_number ∈ failed
    · obtain ⟨t, ht⟩ := resumeChunkStep_eq oracle calls ci.chunk_number cs
      have hrw : resumeLoop oracle failed (ci :: rest) cs calls =
          ((resumeLoop oracle failed rest (updateChunkEntry cs ci.chunk_number t) (calls + 1)).1,
           ci.chunk_number ::
             (resumeLoop oracle failed rest (updateChunkEntry cs ci.chunk_number t) (calls + 1)).2.1,
           (resumeLoop oracle failed rest (updateChunkEntry cs ci.chunk_number t) (calls + 1)).2.2) := by
        rw [resumeLoop, if_pos hm, ht]
      obtain ⟨ihl, ihi, ihn, ihp⟩ := ih (updateChunkEntry cs ci.chunk_number t) (calls + 1)
      rw [hrw]
      refine ⟨?_, ?_, ?_, ?_⟩
      · rw [ihl, updateChunkEntry_length]
      · rw [ihi, List.map_cons, List.filter_cons,
          if_pos (by simpa using hm)]
      · intro i
        rw [ihn i, updateChunkEntry_getD_chunk_number]
      · intro i hip
        have hne : (cs.getD i default).chunk_number ≠ ci.chunk_number :=
          fun he => hip (he ▸ hm)
        have hupd : (updateChunkEntry cs ci.chunk_number t).getD i default =
            cs.getD i default := updateChunkEntry_getD_of_ne cs ci.chunk_number t i hne
        rw [ihp i (by rw [hupd]; exact hip), hupd]
    · have hrw : resumeLoop oracle failed (ci :: rest) cs calls =
          resumeLoop oracle failed rest cs calls := by
        rw [resumeLoop, if_neg hm]
      obtain ⟨ihl, ihi, ihn, ihp⟩ := ih cs calls
      rw [hrw]
      refine ⟨ihl, ?_, ihn, ihp⟩
      rw [ihi, List.map_cons, List.filter_cons, if_neg (by simpa using hm)]

/-- The resume loop preserves the recorded-length invariant of entries. -/
lemma resumeLoop_inv (oracle : ℕ → InferOutcome) (failed : List ℕ) :
    ∀ (segs : List ChunkInfo) (cs : List ChunkData) (calls : ℕ),
      (∀ c ∈ cs, c.summary_length = c.summary.length) →
      ∀ c ∈ (resumeLoop oracle failed segs cs calls).1,
        c.summary_length = c.summary.length := by
  intro segs
  induction segs with
  | nil => exact fun cs calls h => h
  | cons ci rest ih =>
    intro cs calls h
    by_cases hm : ci.chunk_number ∈ failed
    · obtain ⟨t, ht⟩ := resumeChunkStep_eq oracle calls ci.chunk_number cs
      have hrw : (resumeLoop oracle failed (ci :: rest) cs calls).1 =
          (resumeLoop oracle failed rest (updateChunkEntry cs ci.chunk_number t) (calls + 1)).1 := by
        rw [resumeLoop, if_pos hm, ht]
      rw [hrw]
      exact ih _ _ (updateChunkEntry_inv cs ci.chunk_number t h)
    · have hrw : (resumeLoop oracle failed (ci :: rest) cs calls).1 =
          (resumeLoop oracle failed rest cs calls).1 := by
        rw [resumeLoop, if_neg hm]
      rw [hrw]
      exact ih cs calls h

/-- Chunk numbers produced by the segmenter are the successors of an initial
segment of the naturals, hence duplicate-free. -/
lemma segment_video_numbers (d l : ℚ) :
    (segment_video d l).map (fun c => c.chunk_number) =
      (List.range (chunkCount d l)).map (fun i => i + 1) := by
  rw [segment_video, List.map_map]
  rfl

/-- Chunk numbers produced by the segmenter carry no duplicates. -/
lemma segment_video_numbers_nodup (d l : ℚ) :
    ((segment_video d l).map (fun c => c.chunk_number)).Nodup := by
  rw [segment_video_numbers]
  exact (List.nodup_range (chunkCount d l)).map (fun a b hab => by omega)



/-- C3: provided every failed chunk number is among the re-derived chunk
numbers (as is the case for any artifact the pipeline itself wrote), a resume
run re-invokes inference exactly for the chunk numbers classified as failed —
each exactly once — preserves the number and positional chunk numbers of the
stored entries, and leaves every entry whose chunk number is not classified
as failed identical in place. -/
theorem c3_resume_exactly_failed (oracle : ℕ → InferOutcome) (d l : ℚ)
    (s : RunSummary) (now : Str)
    (hsub : ∀ n ∈ classify_failed s,
      n ∈ (segment_video d l).map fun c => c.chunk_number) :
    (∀ n, n ∈ (resume_failed_processing oracle d l s now).invoked ↔
      n ∈ classify_failed s) ∧
    (resume_failed_processing oracle d l s now).invoked.Nodup ∧
    (resume_failed_processing oracle d l s now).summary.chunks.length =
      s.chunks.length ∧
    (∀ i, (((resume_failed_processing oracle d l s now).summary.chunks.getD i
        default).chunk_number = (s.chunks.getD i default).chunk_number)) ∧
    (∀ i, (s.chunks.getD i default).chunk_number ∉ classify_failed s →
      (resume_failed_processing oracle d l s now).summary.chunks.getD i default =
        s.chunks.getD i default) := by
  by_cases hE : (classify_failed s).isEmpty
  · have hcl : classify_failed s = [] := List.isEmpty_iff.mp hE
    have hres : resume_failed_processing oracle d l s now =
        { summary := s, invoked := [],
          effects := { inferCalls := 0, mediaDecoded := false } } := by
      rw [resume_failed_processing, if_pos hE]
    rw [hres, hcl]
    exact ⟨fun n => Iff.rfl, List.nodup_nil, rfl, fun i => rfl, fun i h => rfl⟩
  · have hres : resume_failed_processing oracle d l s now =
        { summary := { s with
            chunks := (resumeLoop oracle (classify_failed s)
              (segment_video d l) s.chunks 0).1,
            processing_date := now },
          invoked := (resumeLoop oracle (classify_failed s)
            (segment_video d l) s.chunks 0).2.1,
          effects := { inferCalls := (resumeLoop oracle (classify_failed s)
            (segment_video d l) s.chunks 0).2.2, mediaDecoded := true } } := by
      rw [resume_failed_processing, if_neg hE]
    obtain ⟨hl, hi, hn, hp⟩ :=
      resumeLoop_spec oracle (classify_failed s) (segment_video d l) s.chunks 0
    rw [hres]
    refine ⟨?_, ?_, hl, hn, hp⟩
    · intro n
      rw [hi, List.mem_filter]
      constructor
      · rintro ⟨-, hd2⟩
        exact of_decide_eq_true hd2
      · intro hn2
        exact ⟨hsub n hn2, decide_eq_true hn2⟩
    · rw [hi]
      exact (segment_video_numbers_nodup d l).filter _

/-- C3 witness: for the five-chunk artifact with failure markers on chunks 2
and 5 (video of duration 150, chunk length 30), chunk 2 is re-invoked, chunk
3 is not, and the entry count is preserved. -/
theorem c3_resume_exactly_failed_witness :
    (2 ∈ (resume_failed_processing oracleOk 150 30 c3Summary nowEx).invoked) ∧
    ¬ (3 ∈ (resume_failed_processing oracleOk 150 30 c3Summary nowEx).invoked) ∧
    (resume_failed_processing oracleOk 150 30 c3Summary nowEx).summary.chunks.length =
      c3Summary.chunks.length := by
  have hcount : chunkCount 150 30 = 5 := by
    rw [chunkCount, show (150 : ℚ) / 30 = 5 by norm_num]
    simp
  have hseg : (segment_video 150 30).map (fun c => c.chunk_number) = [1, 2, 3, 4, 5] := by
    rw [segment_video_numbers, hcount]
    decide
  have hcl : classify_failed c3Summary = [2, 5] := by decide
  have hsub : ∀ n ∈ classify_failed c3Summary,
      n ∈ (segment_video 150 30).map fun c => c.chunk_number := by
    intro n hn
    rw [hcl] at hn
    rw [hseg]
    rcases List.mem_cons.mp hn with h1 | h1
    · rw [h1]; decide
    · rw [List.mem_singleton.mp h1]; decide
  have h := c3_resume_exactly_failed oracleOk 150 30 c3Summary nowEx hsub
  refine ⟨(h.1 2).mpr (by rw [hcl]; decide), ?_, h.2.2.1⟩
  intro hmem
  have h3 := (h.1 3).mp hmem
  rw [hcl] at h3
  exact absurd h3 (by decide)

/-- C4: when the probe finds a prior artifact with zero failed chunks and the
user accepts reuse, `process_video` short-circuits — it returns the loaded
artifact unchanged with no inference calls and no media decoding; a second
reuse run over the same stored artifact returns the identical content, and
`resume_failed_processing` likewise returns a failure-free artifact unchanged
without decoding or calling out. -/
theorem c4_reuse_short_circuit (fs fs2 : Str → Option RunSummary)
    (oracle oracle2 oracle3 : ℕ → InferOutcome) (chunkLen chunkLen2 d3 l3 : ℚ)
    (vp : Str) (md mfps md2 mfps2 : ℚ) (msz msz2 : ℚ × ℚ) (now now2 now3 : Str)
    (s : RunSummary) (ar ar2 : Bool)
    (h1 : fs (check_existing_summary_path vp) = some s)
    (h2 : processVideoFailedChunks s = []) :
    process_video fs oracle chunkLen vp md mfps msz now false ar true =
      (s, { inferCalls := 0, mediaDecoded := false }) ∧
    (fs2 (check_existing_summary_path vp) =
        some (process_video fs oracle chunkLen vp md mfps msz now false ar true).1 →
      process_video fs2 oracle2 chunkLen2 vp md2 mfps2 msz2 now2 false ar2 true =
        (s, { inferCalls := 0, mediaDecoded := false })) ∧
    resume_failed_processing oracle3 d3 l3 s now3 =
      { summary := s, invoked := [],
        effects := { inferCalls := 0, mediaDecoded := false } } := by
  have hreuse : ∀ (fs' : Str → Option RunSummary) (oracle' : ℕ → InferOutcome)
      (chunkLen' md' mfps' : ℚ) (msz' : ℚ × ℚ) (now' : Str) (ar' : Bool),
      fs' (check_existing_summary_path vp) = some s →
      process_video fs' oracle' chunkLen' vp md' mfps' msz' now' false ar' true =
        (s, { inferCalls := 0, mediaDecoded := false }) := by
    intro fs' oracle' chunkLen' md' mfps' msz' now' ar' h1'
    rw [process_video]
    simp only [Bool.false_eq_true, if_false, check_existing_summary, h1', h2,
      if_pos rfl, if_pos (Eq.refl (true : Bool)), if_true]
  have hfirst := hreuse fs oracle chunkLen md mfps msz now ar h1
  refine ⟨hfirst, ?_, ?_⟩
  · intro h1second
    rw [hfirst] at h1second
    exact hreuse fs2 oracle2 chunkLen2 md2 mfps2 msz2 now2 ar2 h1second
  · rw [resume_failed_processing, if_pos]
    rw [show classify_failed s = processVideoFailedChunks s from rfl, h2]
    rfl

/-- C4 witness: a store holding the clean one-chunk artifact at the probed
name; reuse returns it unchanged with zero effects. -/
theorem c4_reuse_short_circuit_witness :
    process_video c4Fs oracleOk 30 ("video.mp4".toList) 150 30 (640, 360) nowEx
        false false true =
      (c6CleanArtifact, { inferCalls := 0, mediaDecoded := false }) :=
  (c4_reuse_short_circuit c4Fs c4Fs oracleOk oracleOk oracleOk 30 30 1 1
    ("video.mp4".toList) 150 30 150 30 (640, 360) (640, 360) nowEx nowEx nowEx
    c6CleanArtifact false false (by rw [c4Fs, writeFs]; simp) (by decide)).1

/-- C10: every artifact the pipeline assembles or mutates keeps each entry's
recorded summary length equal to the character length of its stored summary —
established at fresh-run assembly, and preserved through a resume run that
starts from an artifact satisfying it. -/
theorem c10_summary_length_invariant :
    (∀ (vi : VideoInfo) (chunkLen : ℚ) (css : List (ChunkInfo × Str)) (now : Str),
      ∀ c ∈ (create_video_summary_json vi chunkLen css now).chunks,
        c.summary_length = c.summary.length) ∧
    (∀ (oracle : ℕ → InferOutcome) (d l : ℚ) (s : RunSummary) (now : Str),
      (∀ c ∈ s.chunks, c.summary_length = c.summary.length) →
      ∀ c ∈ (resume_failed_processing oracle d l s now).summary.chunks,
        c.summary_length = c.summary.length) := by
  constructor
  · intro vi chunkLen css now c hc
    rw [create_video_summary_json] at hc
    simp only [List.mem_map] at hc
    obtain ⟨p, -, rfl⟩ := hc
    rfl
  · intro oracle d l s now h c hc
    by_cases hE : (classify_failed s).isEmpty
    · rw [resume_failed_processing, if_pos hE] at hc
      exact h c hc
    · rw [resume_failed_processing, if_neg hE] at hc
      exact resumeLoop_inv oracle (classify_failed s) (segment_video d l) s.chunks 0 h c hc

/-- C10 witness: applying the resume part to the concrete clean artifact
(whose entries record correct lengths), the first entry of the result records
the length of its stored summary. -/
theorem c10_summary_length_invariant_witness :
    ((resume_failed_processing oracleOk 1 1 c6CleanArtifact nowEx).summary.chunks.getD 0
        default).summary_length =
      ((resume_failed_processing oracleOk 1 1 c6CleanArtifact nowEx).summary.chunks.getD 0
        default).summary.length :=
  c10_summary_length_invariant.2 oracleOk 1 1 c6CleanArtifact nowEx (by decide) _ (by decide)


end VideoSummarizer
